import Mathlib

/-!
Verification of the HTML→Markdown conversion logic of `c2m.py`
(confluence-2-markdown).

The Python source is shallowly embedded: pure string manipulation is
modelled over `List Char` (wrapped into `String` at the API boundary),
the converter's mutable fields become an explicit `ConvState` record,
and network downloads become an explicit `dl` function parameter
returning `Except`.  Python `\s`, `\w`, `str.lower`, `str.strip` are
modelled over their ASCII core (all inputs appearing in the claims are
ASCII).
-/

namespace C2M

/-- ASCII core of Python's `\s` / `str.strip()` whitespace class. -/
def isPySpace (c : Char) : Bool :=
  c == ' ' || c == '\t' || c == '\n' || c == '\r' || c == '\x0b' || c == '\x0c'

/-- ASCII core of Python's `\w` (word character) class. -/
def isWordChar (c : Char) : Bool :=
  c.isAlphanum || c == '_'

/-- ASCII core of Python's `str.lower` (maps `A`–`Z` to `a`–`z`). -/
def toLowerC (c : Char) : Char :=
  if 65 ≤ c.toNat ∧ c.toNat ≤ 90 then Char.ofNat (c.toNat + 32) else c

/-- `'-'` test used for the regex `-+` of `slugify`. -/
def isDashB (c : Char) : Bool := c == '-'

/-- Python `str.strip()`: drop leading and trailing whitespace. -/
def stripChars (l : List Char) : List Char :=
  ((l.dropWhile isPySpace).reverse.dropWhile isPySpace).reverse

/-- Worker for `collapseRuns`; `inRun` records whether the previous
character was part of a run already replaced by `rep`. -/
def collapseRunsGo (p : Char → Bool) (rep : Char) : Bool → List Char → List Char
  | _, [] => []
  | inRun, c :: rest =>
    if p c then
      if inRun then collapseRunsGo p rep true rest
      else rep :: collapseRunsGo p rep true rest
    else c :: collapseRunsGo p rep false rest

/-- `re.sub(p+, rep, s)` for a character class `p`: every maximal run of
characters satisfying `p` is replaced by the single character `rep`. -/
def collapseRuns (p : Char → Bool) (rep : Char) (l : List Char) : List Char :=
  collapseRunsGo p rep false l

/-- Characters kept by `re.sub(r"[^\w\s-]", "", slug)`. -/
def keepSlugChar (c : Char) : Bool :=
  isWordChar c || isPySpace c || c == '-'

/-- `TwoPassConverter.slugify` on the character list:
`strip`, `lower`, remove punctuation, whitespace runs → `-`,
collapse `-` runs. -/
def slugifyList (l : List Char) : List Char :=
  collapseRuns isDashB '-'
    (collapseRuns isPySpace '-'
      (((stripChars l).map toLowerC).filter keepSlugChar))

/-- `TwoPassConverter.slugify` (c2m.py lines 113–123). -/
def slugify (text : String) : String :=
  ⟨slugifyList text.data⟩

/-- Split a character list at the first occurrence of `c`:
returns the part before and, when `c` occurs, the part after. -/
def splitOnFirstChar : List Char → Char → List Char × Option (List Char)
  | [], _ => ([], none)
  | x :: rest, c =>
    if x == c then ([], some rest)
    else
      let r := splitOnFirstChar rest c
      (x :: r.1, r.2)

/-- Python `s.split(sep)` for a single separator character. -/
def splitChar (c : Char) : List Char → List (List Char)
  | [] => [[]]
  | x :: rest =>
    if x == c then [] :: splitChar c rest
    else
      match splitChar c rest with
      | [] => [[x]]
      | y :: ys => (x :: y) :: ys

/-- Python `needle in hay` (contiguous substring test). -/
def containsSub : List Char → List Char → Bool
  | [], needle => needle.isEmpty
  | a :: t, needle => needle.isPrefixOf (a :: t) || containsSub t needle

/-- Python `needle in hay` on strings. -/
def strContains (hay needle : String) : Bool :=
  containsSub hay.data needle.data

/-- Python `s.startswith(pat)`. -/
def strStartsWith (s pat : String) : Bool :=
  pat.data.isPrefixOf s.data

/-- Value of an ASCII hex digit. -/
def hexDigitVal (c : Char) : Option Nat :=
  if '0' ≤ c ∧ c ≤ '9' then some (c.toNat - 48)
  else if 'a' ≤ c ∧ c ≤ 'f' then some (c.toNat - 87)
  else if 'A' ≤ c ∧ c ≤ 'F' then some (c.toNat - 55)
  else none

/-- Percent-decoding as in `urllib.parse.unquote` (ASCII model: a valid
`%XX` escape becomes the character with code `XX`; invalid escapes are
left as-is, as in Python). -/
def percentDecode : List Char → List Char
  | '%' :: a :: b :: rest =>
    match hexDigitVal a, hexDigitVal b with
    | some x, some y => Char.ofNat (16 * x + y) :: percentDecode rest
    | _, _ => '%' :: percentDecode (a :: b :: rest)
  | c :: rest => c :: percentDecode rest
  | [] => []

/-- `urllib.parse.unquote_plus`: `+` becomes a space, then percent-decode. -/
def unquote_plusL (l : List Char) : List Char :=
  percentDecode (l.map (fun c => if c == '+' then ' ' else c))

/-- `urllib.parse.unquote_plus` on strings. -/
def unquote_plusS (s : String) : String :=
  ⟨unquote_plusL s.data⟩

/-- `urllib.parse.unquote` on strings (percent-decoding only). -/
def unquoteStr (s : String) : String :=
  ⟨percentDecode s.data⟩

/-- Characters allowed in a URL scheme. -/
def isSchemeChar (c : Char) : Bool :=
  c.isAlphanum || c == '+' || c == '-' || c == '.'

/-- Characters that do not terminate the netloc component. -/
def netlocChar (c : Char) : Bool :=
  !(c == '/' || c == '?' || c == '#')

/-- Result of `urllib.parse.urlparse`. -/
structure ParsedUrl where
  scheme : String
  netloc : String
  path : String
  query : String
  fragment : String
deriving Repr, DecidableEq

/-- `urllib.parse.urlparse` (model: scheme split at the first `:` when the
candidate is alphabetic-led scheme characters; `//netloc` delimited by
`/?#`; then fragment after `#` and query after `?`; the rarely-used
`;params` split is omitted — no claim input contains `;`). -/
def urlparse (url : String) : ParsedUrl :=
  let l := url.data
  let sr :=
    match splitOnFirstChar l ':' with
    | (before, some after) =>
      if (match before with | c :: _ => c.isAlpha | [] => false)
          && before.all isSchemeChar
      then (before.map toLowerC, after)
      else (([] : List Char), l)
    | (_, none) => (([] : List Char), l)
  let nr :=
    if ['/', '/'].isPrefixOf sr.2 then
      let body := sr.2.drop 2
      (body.takeWhile netlocChar, body.dropWhile netlocChar)
    else (([] : List Char), sr.2)
  let fr :=
    match splitOnFirstChar nr.2 '#' with
    | (a, some b) => (a, b)
    | (a, none) => (a, ([] : List Char))
  let qr :=
    match splitOnFirstChar fr.1 '?' with
    | (a, some b) => (a, b)
    | (a, none) => (a, ([] : List Char))
  ⟨⟨sr.1⟩, ⟨nr.1⟩, ⟨qr.1⟩, ⟨qr.2⟩, ⟨fr.2⟩⟩

/-- `urllib.parse.parse_qs` seen as an ordered pair list
(`parse_qsl` with default `keep_blank_values=False`): empty segments,
segments without `=` and segments with an empty value are skipped;
names and values are `unquote_plus`-decoded. -/
def parse_qsl (query : String) : List (String × String) :=
  (splitChar '&' query.data).filterMap (fun seg =>
    if seg.isEmpty then none
    else
      match splitOnFirstChar seg '=' with
      | (_, none) => none
      | (name, some value) =>
        if value.isEmpty then none
        else some (⟨unquote_plusL name⟩, ⟨unquote_plusL value⟩))

/-- `qs.get(key, [None])[0]`: first value recorded for `key`. -/
def qsFirst (pairs : List (String × String)) (key : String) : Option String :=
  (pairs.find? (fun p => p.1 == key)).map (fun p => p.2)

/-- `extract_page_info` (c2m.py lines 13–46).  Returns
`(space_key, page_title, page_id)`; `ValueError` becomes `Except.error`.
Note the source double-decodes the `title` query value: `parse_qs` has
already applied `unquote_plus`, and line 26 applies it again. -/
def extract_page_info (page_url : String) :
    Except String (Option String × Option String × Option String) :=
  let parsed := urlparse page_url
  if strContains parsed.path "viewpage.action" then
    let qs := parse_qsl parsed.query
    match qsFirst qs "pageId" with
    | some page_id => .ok (none, none, some page_id)
    | none =>
      match qsFirst qs "spaceKey", qsFirst qs "title" with
      | some space_key, some raw_title =>
        .ok (some space_key, some (unquote_plusS raw_title), none)
      | _, _ => .error "Neither pageId nor (spaceKey + title) found in the URL query."
  else if strContains parsed.path "display" then
    let parts := splitChar '/' parsed.path.data
    if parts.length ≥ 3 then
      .ok (some ⟨parts.getD 2 []⟩,
        some (if parts.length ≥ 4 then ⟨unquote_plusL (parts.getD 3 [])⟩ else ""),
        none)
    else .error "PAGE_URL in /display/ format does not have enough parts."
  else if strContains parsed.path "wiki" && strContains parsed.path "spaces" then
    let parts := splitChar '/' parsed.path.data
    if parts.length ≥ 7 then
      .ok (some ⟨parts.getD 3 []⟩, some ⟨unquote_plusL (parts.getD 6 [])⟩, none)
    else .error "PAGE_URL in /wiki/spaces/ format does not have enough parts."
  else .error "PAGE_URL does not follow a recognized Confluence URL format."

/-- Python `s * n` for strings (`"#" * level`, `"  " * (level-1)`). -/
def repeatStr (s : String) (n : Nat) : String :=
  ⟨(List.replicate n s.data).flatten⟩

/-- Python `sep.join(xs)`. -/
def intercalateStr (sep : String) (xs : List String) : String :=
  ⟨((xs.map String.data).intersperse sep.data).flatten⟩

/-- Python `s.rstrip("/")`: drop all trailing slashes. -/
def rstripSlash (s : String) : String :=
  ⟨(s.data.reverse.dropWhile (fun c => c == '/')).reverse⟩

/-- `os.path.basename`: the part of a path after the last `/`. -/
def basenameStr (p : String) : String :=
  ⟨(p.data.reverse.takeWhile (fun c => !(c == '/'))).reverse⟩

/-- Worker for `replaceList`; the fuel argument (initialized to the
input length, and never exhausted before the input is) makes the
recursion structural. -/
def replaceGo (pat rep : List Char) : Nat → List Char → List Char
  | _, [] => []
  | 0, s => s
  | fuel + 1, c :: rest =>
    if !pat.isEmpty && pat.isPrefixOf (c :: rest) then
      rep ++ replaceGo pat rep fuel ((c :: rest).drop pat.length)
    else c :: replaceGo pat rep fuel rest

/-- Python `s.replace(old, new)`: replace every (left-to-right,
non-overlapping) occurrence of `old`.  All call sites in the source pass
a non-empty `old`; for `old = []` this model returns `s` unchanged. -/
def replaceList (pat rep s : List Char) : List Char :=
  replaceGo pat rep s.length s

/-- Python `s.replace(old, new)` on strings. -/
def strReplace (s old new : String) : String :=
  ⟨replaceList old.data new.data s.data⟩

/-- A heading element as `_convert_heading` inspects it:
the optional `data-nh-numbering` attribute and, when a
`<span class="nh-number">` child exists, its stripped text. -/
structure HeadingEl where
  data_nh_numbering : Option String
  nh_number_span : Option String
deriving Repr, DecidableEq

/-- The mutable per-document state of `TwoPassConverter`
(`__init__`, c2m.py lines 107–111): heading records
`(final_level, anchor, final_text)`, emitted TOC placeholder tokens,
and `last_heading_level`. -/
structure ConvState where
  headings : List (Nat × String × String)
  toc_placeholders : List String
  last_heading_level : Nat
deriving Repr, DecidableEq

/-- The fresh converter state built by `TwoPassConverter.__init__`. -/
def initConvState : ConvState := ⟨[], [], 0⟩

/-- Numbering text gathered from `data-nh-numbering` and the
`nh-number` span (c2m.py lines 152–167): the attribute when truthy,
then the span text when non-empty and not already a substring. -/
def headingNumbering (el : HeadingEl) : String :=
  let p1 :=
    match el.data_nh_numbering with
    | some attr => if attr ≠ "" then attr else ""
    | none => ""
  match el.nh_number_span with
  | some span_txt =>
    if span_txt ≠ "" ∧ strContains p1 span_txt = false then p1 ++ span_txt
    else p1
  | none => p1

/-- Heading text cleanup (c2m.py lines 169–171): non-breaking spaces
become spaces, whitespace runs collapse to one space, then strip. -/
def normalizeHeadingText (text : String) : String :=
  ⟨stripChars (collapseRuns isPySpace ' '
    (text.data.map (fun c => if c == '\u00A0' then ' ' else c)))⟩

/-- Truth value of `re.match(r"^\d+(\.\d+)*", s)` (c2m.py line 175).
Both groups after `\d+` are optional, so the regex matches exactly when
the text starts with a digit. -/
def startsWithNumbering (l : List Char) : Bool :=
  match l with
  | [] => false
  | c :: _ => c.isDigit

/-- The final heading text of `_convert_heading`
(c2m.py lines 169–180): the normalized text alone when it already
starts with a numeric pattern, else the numbering text prepended and
the result stripped. -/
def headingFinalText (el : HeadingEl) (heading_text : String) : String :=
  let s := normalizeHeadingText heading_text
  if startsWithNumbering s.data then s
  else ⟨stripChars (headingNumbering el ++ s).data⟩

/-- Level clamping of `_convert_heading` (c2m.py lines 182–189). -/
def clampLevel (last lvl : Nat) : Nat :=
  if last = 0 then lvl
  else if lvl > last + 1 then last + 1
  else lvl

/-- `TwoPassConverter._convert_heading` (c2m.py lines 146–198):
returns the updated converter state and the emitted Markdown. -/
def convertHeading (st : ConvState) (el : HeadingEl) (heading_text : String)
    (level_from_tag : Nat) : ConvState × String :=
  let final_text := headingFinalText el heading_text
  let final_level := clampLevel st.last_heading_level level_from_tag
  let anchor := slugify final_text
  ({ st with
      last_heading_level := final_level,
      headings := st.headings ++ [(final_level, anchor, final_text)] },
    "\n\n" ++ repeatStr "#" final_level ++ " " ++ final_text ++ "\n\n")

/-- A sequence of `convert_h1`…`convert_h6` calls on one converter
instance: each input is the heading element, its text, and the nominal
tag level passed as `level_from_tag`. -/
def runHeadings (st : ConvState) :
    List (HeadingEl × String × Nat) → ConvState × List String
  | [] => (st, [])
  | x :: xs =>
    let r := convertHeading st x.1 x.2.1 x.2.2
    let rest := runHeadings r.1 xs
    (rest.1, r.2 :: rest.2)

/-- The emitted (clamped) levels produced from a list of nominal levels,
threading `last_heading_level`. -/
def emitLevels : Nat → List Nat → List Nat
  | _, [] => []
  | last, l :: ls => clampLevel last l :: emitLevels (clampLevel last l) ls

/-- One TOC bullet line (c2m.py lines 347–353): tuple is
`(level, anchor, heading_text)`. -/
def tocLine (h : Nat × String × String) : String :=
  (if h.1 = 1 then "" else repeatStr "  " (h.1 - 1))
    ++ "- [" ++ h.2.2 ++ "](#" ++ h.2.1 ++ ")"

/-- The bullet-list rendering used when headings exist
(c2m.py lines 344–354). -/
def tocRender (headings : List (Nat × String × String)) : String :=
  intercalateStr "\n" (headings.map tocLine) ++ "\n\n"

/-- The Markdown substituted for each placeholder
(c2m.py lines 338–354). -/
def tocMarkdownOf (headings : List (Nat × String × String)) : String :=
  if headings = [] then "\n\n(No headings found for TOC)\n\n"
  else tocRender headings

/-- `TwoPassConverter.finalize_toc` (c2m.py lines 327–359). -/
def finalize_toc (st : ConvState) (text : String) : String :=
  if st.toc_placeholders = [] then text
  else
    st.toc_placeholders.foldl
      (fun t ph => strReplace t ph (tocMarkdownOf st.headings)) text

/-- Replacing every occurrence of each token of `phs` in `text` by the
single common string `r`. -/
def replaceEach (text : String) (phs : List String) (r : String) : String :=
  phs.foldl (fun t ph => strReplace t ph r) text

/-- Rendering described by the spec (§4.2): one bullet per heading,
indentation 2 spaces × (level − 1) for level > 1, each bullet linking
the heading text to `#slug`. -/
def specTocLine (h : Nat × String × String) : String :=
  (if h.1 > 1 then repeatStr "  " (h.1 - 1) else "")
    ++ "- [" ++ h.2.2 ++ "](#" ++ h.2.1 ++ ")"

/-- Spec-side TOC rendering (bullets joined by newlines, trailing blank
line), to be compared with `tocRender`. -/
def specTocRender (headings : List (Nat × String × String)) : String :=
  intercalateStr "\n" (headings.map specTocLine) ++ "\n\n"

/-- An `<img>` element as `convert_img` inspects it. -/
structure ImgEl where
  data_image_src : Option String
  src : Option String
  alt : String
  title : Option String
deriving Repr, DecidableEq

/-- The Markdown the `markdownify` base class emits for an image:
`![alt](src "title")`. -/
def superConvertImg (el : ImgEl) : String :=
  "![" ++ el.alt ++ "](" ++ el.src.getD "" ++
    (match el.title with
     | some t => if t ≠ "" then " \"" ++ t ++ "\"" else ""
     | none => "") ++ ")"

/-- Source resolution of `convert_img` (c2m.py lines 204–206):
prefer `data-image-src` over `src`; a truthy source not starting with
`http` is absolutized against `BASE_URL` after removing every `//`. -/
def resolveImgSrc (BASE_URL : String) (el : ImgEl) : Option String :=
  let src :=
    match el.data_image_src with
    | some v => some v
    | none => el.src
  match src with
  | some s =>
    if s ≠ "" ∧ strStartsWith s "http" = false then
      some (rstripSlash BASE_URL ++ strReplace s "//" "")
    else some s
  | none => none

/-- `TwoPassConverter.convert_img` (c2m.py lines 203–222).  The network
is the explicit `dl` argument (`download_image` raising becomes
`Except.error`).  Returns the updated element, the emitted Markdown and
the printed log lines; a `none` source makes the Python `in` test on
line 209 raise a `TypeError`, modelled as `Except.error`. -/
def convert_img (BASE_URL : String) (dl : String → Except String Unit)
    (el : ImgEl) : Except String (ImgEl × String × List String) :=
  match resolveImgSrc BASE_URL el with
  | none => .error "TypeError: argument of type NoneType is not iterable"
  | some src =>
    let logs := ["Detected normal image: " ++ src]
    if strContains src "status-macro/placeholder" then
      .ok (el, superConvertImg el ++ "\n\n", logs)
    else
      let local_filename := unquoteStr (basenameStr (urlparse src).path)
      let local_path := "images/" ++ local_filename
      match dl src with
      | .ok _ =>
        let el2 := { el with src := some ("./images/" ++ local_filename) }
        .ok (el2, superConvertImg el2 ++ "\n\n",
          logs ++ ["Image downloaded: " ++ local_path])
      | .error e =>
        let el2 := { el with src := some src }
        .ok (el2, superConvertImg el2 ++ "\n\n",
          logs ++ ["Error downloading image " ++ src ++ ": " ++ e])

/-- An `<a>` element as `convert_a` inspects it. -/
structure AEl where
  href : Option String
  text : String
deriving Repr, DecidableEq

/-- The Markdown the `markdownify` base class emits for a link
(basic `[text](href)` form). -/
def superConvertA (el : AEl) : String :=
  "[" ++ el.text ++ "](" ++ el.href.getD "" ++ ")"

/-- Truth value of `re.match(r'^(https?://|mailto:)', href)`
(c2m.py line 231). -/
def startsHttpMailto (href : String) : Bool :=
  strStartsWith href "http://" || strStartsWith href "https://"
    || strStartsWith href "mailto:"

/-- `TwoPassConverter.convert_a` (c2m.py lines 227–237): returns the
(possibly updated) element and the emitted Markdown. -/
def convert_a (BASE_URL : String) (el : AEl) : AEl × String :=
  let href := el.href.getD ""
  if href = "" then (el, superConvertA el)
  else if startsHttpMailto href then (el, superConvertA el)
  else
    let href2 := rstripSlash BASE_URL ++ href
    let el2 := { el with href := some href2 }
    (el2, superConvertA el2)

lemma collapseRunsGo_true (p : Char → Bool) (rep : Char) :
    ∀ l : List Char,
      collapseRunsGo p rep true l = collapseRunsGo p rep false (l.dropWhile p) := by
  intro l
  induction l with
  | nil => rfl
  | cons c rest ih =>
    by_cases hp : p c
    · rw [List.dropWhile_cons, if_pos hp]
      simp only [collapseRunsGo, hp, if_true]
      exact ih
    · rw [List.dropWhile_cons, if_neg hp]
      simp [collapseRunsGo, hp]

lemma collapseRuns_nil (p : Char → Bool) (rep : Char) :
    collapseRuns p rep [] = [] := rfl

lemma collapseRuns_cons (p : Char → Bool) (rep : Char) (c : Char) (rest : List Char) :
    collapseRuns p rep (c :: rest) =
      if p c then rep :: collapseRuns p rep (rest.dropWhile p)
      else c :: collapseRuns p rep rest := by
  by_cases hp : p c
  · simp only [collapseRuns, collapseRunsGo, hp, if_true]
    rw [collapseRunsGo_true]
    simp
  · simp [collapseRuns, collapseRunsGo, hp]

lemma toLowerC_toLowerC (c : Char) : toLowerC (toLowerC c) = toLowerC c := by
  by_cases h : 65 ≤ c.toNat ∧ c.toNat ≤ 90
  · have h1 : toLowerC c = Char.ofNat (c.toNat + 32) := by
      unfold toLowerC; rw [if_pos h]
    obtain ⟨ha, hb⟩ := h
    rw [h1]
    generalize hval : c.toNat = n
    rw [hval] at ha hb
    interval_cases n <;> decide
  · have h1 : toLowerC c = c := by unfold toLowerC; rw [if_neg h]
    rw [h1]; exact h1

lemma dropWhile_eq_self_of (p : Char → Bool) (l : List Char)
    (h : ∀ c ∈ l, p c = false) : l.dropWhile p = l := by
  cases l with
  | nil => rfl
  | cons a rest =>
    have := h a (List.mem_cons_self a rest)
    simp [List.dropWhile_cons, this]

lemma map_eq_self_of (f : Char → Char) (l : List Char)
    (h : ∀ c ∈ l, f c = c) : l.map f = l := by
  induction l with
  | nil => rfl
  | cons a rest ih =>
    simp only [List.map_cons]
    rw [h a (List.mem_cons_self a rest),
      ih (fun c hc => h c (List.mem_cons_of_mem a hc))]

lemma mem_collapseRuns (p : Char → Bool) (rep : Char) :
    ∀ (n : ℕ) (l : List Char), l.length ≤ n →
      ∀ c ∈ collapseRuns p rep l, c = rep ∨ (c ∈ l ∧ p c = false) := by
  intro n
  induction n with
  | zero =>
    intro l hl c hc
    have hnil : l = [] := List.length_eq_zero.mp (Nat.le_zero.mp hl)
    subst hnil
    rw [collapseRuns_nil] at hc
    simp at hc
  | succ n ih =>
    intro l hl c hc
    cases l with
    | nil => rw [collapseRuns_nil] at hc; simp at hc
    | cons a rest =>
      by_cases hp : p a
      · rw [collapseRuns_cons, if_pos hp] at hc
        rcases List.mem_cons.mp hc with h1 | h1
        · left; exact h1
        · have hlen : (rest.dropWhile p).length ≤ n := by
            have := (List.dropWhile_sublist (l := rest) p).length_le
            simp only [List.length_cons] at hl
            omega
          rcases ih _ hlen c h1 with h2 | ⟨h3, h4⟩
          · left; exact h2
          · right
            exact ⟨List.mem_cons_of_mem a ((List.dropWhile_sublist p).subset h3), h4⟩
      · rw [collapseRuns_cons, if_neg hp] at hc
        rcases List.mem_cons.mp hc with h1 | h1
        · right
          refine ⟨by simp [h1], ?_⟩
          subst h1
          simpa using hp
        · have hlen : rest.length ≤ n := by
            simp only [List.length_cons] at hl; omega
          rcases ih _ hlen c h1 with h2 | ⟨h3, h4⟩
          · left; exact h2
          · right; exact ⟨List.mem_cons_of_mem a h3, h4⟩

lemma collapseRuns_eq_self (p : Char → Bool) (rep : Char) (l : List Char)
    (h : ∀ c ∈ l, p c = false) : collapseRuns p rep l = l := by
  induction l with
  | nil => exact collapseRuns_nil p rep
  | cons a rest ih =>
    rw [collapseRuns_cons, if_neg (by simp [h a (List.mem_cons_self a rest)]),
      ih (fun c hc => h c (List.mem_cons_of_mem a hc))]

lemma head?_dropWhile_false (p : Char → Bool) :
    ∀ (l : List Char) (c : Char), (l.dropWhile p).head? = some c → p c = false := by
  intro l
  induction l with
  | nil => intro c hc; simp at hc
  | cons a rest ih =>
    intro c hc
    by_cases hp : p a
    · rw [List.dropWhile_cons, if_pos hp] at hc
      exact ih c hc
    · rw [List.dropWhile_cons, if_neg hp] at hc
      simp only [List.head?_cons, Option.some.injEq] at hc
      subst hc
      simpa using hp

lemma collapseRuns_head? (p : Char → Bool) (rep : Char) (l : List Char) :
    (collapseRuns p rep l).head? = l.head?.map (fun c => if p c then rep else c) := by
  cases l with
  | nil => simp [collapseRuns_nil]
  | cons a rest =>
    by_cases hp : p a <;> simp [collapseRuns_cons, hp]

/-- No two consecutive dashes. -/
def noDashPair (a b : Char) : Prop := a = '-' → b ≠ '-'

lemma chain'_collapseRuns_dash :
    ∀ (n : ℕ) (l : List Char), l.length ≤ n →
      List.Chain' noDashPair (collapseRuns isDashB '-' l) := by
  intro n
  induction n with
  | zero =>
    intro l hl
    have hnil : l = [] := List.length_eq_zero.mp (Nat.le_zero.mp hl)
    subst hnil
    simp [collapseRuns_nil]
  | succ n ih =>
    intro l hl
    cases l with
    | nil => simp [collapseRuns_nil]
    | cons a rest =>
      by_cases hp : isDashB a
      · rw [collapseRuns_cons, if_pos hp, List.chain'_cons']
        constructor
        · intro y hy _
          rw [collapseRuns_head?] at hy
          cases hh : (rest.dropWhile isDashB).head? with
          | none => rw [hh] at hy; simp at hy
          | some c =>
            rw [hh] at hy
            have hc : isDashB c = false := head?_dropWhile_false _ _ _ hh
            simp only [Option.map_some', Option.mem_def, Option.some.injEq] at hy
            rw [if_neg (by simp [hc])] at hy
            subst hy
            simpa [isDashB] using hc
        · apply ih
          have := (List.dropWhile_sublist (l := rest) isDashB).length_le
          simp only [List.length_cons] at hl
          omega
      · rw [collapseRuns_cons, if_neg hp, List.chain'_cons']
        constructor
        · intro y _ ha
          exact absurd (by simp [isDashB, ha] : isDashB a = true) hp
        · apply ih
          simp only [List.length_cons] at hl
          omega

lemma collapseRuns_dash_eq_self :
    ∀ (l : List Char), List.Chain' noDashPair l → collapseRuns isDashB '-' l = l := by
  intro l
  induction l with
  | nil => intro _; exact collapseRuns_nil _ _
  | cons a rest ih =>
    intro h
    rcases List.chain'_cons'.mp h with ⟨hhead, htail⟩
    by_cases hp : isDashB a
    · have ha : a = '-' := by simpa [isDashB] using hp
      rw [collapseRuns_cons, if_pos hp]
      have hdw : rest.dropWhile isDashB = rest := by
        cases rest with
        | nil => rfl
        | cons b rest2 =>
          have hb : b ≠ '-' := hhead b (by simp) ha
          rw [List.dropWhile_cons, if_neg (by simp [isDashB, hb])]
      rw [hdw, ih htail, ha]
    · rw [collapseRuns_cons, if_neg hp, ih htail]

lemma stripChars_eq_self (l : List Char)
    (h : ∀ c ∈ l, isPySpace c = false) : stripChars l = l := by
  unfold stripChars
  rw [dropWhile_eq_self_of _ _ h,
    dropWhile_eq_self_of _ _ (fun c hc => h c (List.mem_reverse.mp hc))]
  exact List.reverse_reverse l

lemma slugifyList_idem (l : List Char) :
    slugifyList (slugifyList l) = slugifyList l := by
  have key : ∀ c ∈ slugifyList l,
      isPySpace c = false ∧ toLowerC c = c ∧ keepSlugChar c = true := by
    intro c hc
    unfold slugifyList at hc
    rcases mem_collapseRuns isDashB '-' _ _ (le_refl _) c hc with h1 | ⟨h1, _⟩
    · subst h1
      exact ⟨by decide, by decide, by decide⟩
    · rcases mem_collapseRuns isPySpace '-' _ _ (le_refl _) c h1 with h2 | ⟨h2, hs2⟩
      · subst h2
        exact ⟨by decide, by decide, by decide⟩
      · have hk : keepSlugChar c = true := List.of_mem_filter h2
        have hm : c ∈ (stripChars l).map toLowerC := List.mem_of_mem_filter h2
        rcases List.mem_map.mp hm with ⟨a, _, ha⟩
        refine ⟨hs2, ?_, hk⟩
        rw [← ha]
        exact toLowerC_toLowerC a
  have hchain : List.Chain' noDashPair (slugifyList l) := by
    unfold slugifyList
    exact chain'_collapseRuns_dash _ _ (le_refl _)
  show collapseRuns isDashB '-'
      (collapseRuns isPySpace '-'
        (((stripChars (slugifyList l)).map toLowerC).filter keepSlugChar))
    = slugifyList l
  rw [stripChars_eq_self _ (fun c hc => (key c hc).1),
    map_eq_self_of _ _ (fun c hc => (key c hc).2.1),
    List.filter_eq_self.mpr (fun c hc => (key c hc).2.2),
    collapseRuns_eq_self isPySpace '-' _ (fun c hc => (key c hc).1)]
  exact collapseRuns_dash_eq_self _ hchain

/-- C4: `slugify` is idempotent: `slugify (slugify x) = slugify x`
for every input string `x`. -/
theorem c4_slugify_idempotent (x : String) : slugify (slugify x) = slugify x := by
  show String.mk (slugifyList (String.mk (slugifyList x.data)).data)
    = String.mk (slugifyList x.data)
  exact congrArg String.mk (slugifyList_idem x.data)

lemma clampLevel_zero (lvl : Nat) : clampLevel 0 lvl = lvl := by
  simp [clampLevel]

lemma clampLevel_le (last lvl : Nat) : clampLevel last lvl ≤ lvl := by
  unfold clampLevel
  split_ifs <;> omega

lemma clampLevel_pos (last lvl : Nat) (h : 1 ≤ lvl) :
    1 ≤ clampLevel last lvl := by
  unfold clampLevel
  split_ifs <;> omega

lemma clampLevel_le_succ (last lvl : Nat) (h : 1 ≤ last) :
    clampLevel last lvl ≤ last + 1 := by
  unfold clampLevel
  split_ifs <;> omega

lemma clampLevel_eq_of_le (last lvl : Nat) (h : lvl ≤ last + 1) :
    clampLevel last lvl = lvl := by
  unfold clampLevel
  split_ifs <;> omega

lemma convertHeading_headings (st : ConvState) (el : HeadingEl)
    (t : String) (lvl : Nat) :
    (convertHeading st el t lvl).1.headings
      = st.headings
        ++ [(clampLevel st.last_heading_level lvl,
             slugify (headingFinalText el t), headingFinalText el t)] := rfl

lemma convertHeading_last (st : ConvState) (el : HeadingEl)
    (t : String) (lvl : Nat) :
    (convertHeading st el t lvl).1.last_heading_level
      = clampLevel st.last_heading_level lvl := rfl

lemma runHeadings_nil (st : ConvState) : runHeadings st [] = (st, []) := rfl

lemma runHeadings_cons (st : ConvState) (x : HeadingEl × String × Nat)
    (xs : List (HeadingEl × String × Nat)) :
    runHeadings st (x :: xs)
      = ((runHeadings (convertHeading st x.1 x.2.1 x.2.2).1 xs).1,
         (convertHeading st x.1 x.2.1 x.2.2).2
           :: (runHeadings (convertHeading st x.1 x.2.1 x.2.2).1 xs).2) := rfl

lemma emitLevels_nil (last : Nat) : emitLevels last [] = [] := rfl

lemma emitLevels_cons (last l : Nat) (ls : List Nat) :
    emitLevels last (l :: ls)
      = clampLevel last l :: emitLevels (clampLevel last l) ls := rfl

lemma runHeadings_spec (xs : List (HeadingEl × String × Nat)) :
    ∀ st : ConvState,
      (runHeadings st xs).1.headings.map Prod.fst
          = st.headings.map Prod.fst
            ++ emitLevels st.last_heading_level (xs.map (fun x => x.2.2))
        ∧ (runHeadings st xs).1.last_heading_level
          = (emitLevels st.last_heading_level
              (xs.map (fun x => x.2.2))).getLastD st.last_heading_level := by
  induction xs with
  | nil => intro st; simp [runHeadings_nil, emitLevels_nil]
  | cons x xs ih =>
    intro st
    have h1 := ih (convertHeading st x.1 x.2.1 x.2.2).1
    rw [runHeadings_cons]
    constructor
    · rw [h1.1, convertHeading_headings, convertHeading_last]
      simp [emitLevels_cons, List.map_append]
    · rw [h1.2, convertHeading_last, List.map_cons, emitLevels_cons,
        List.getLastD_cons]

lemma emitLevels_chain' :
    ∀ (ls : List Nat) (last : Nat), (∀ l ∈ ls, 1 ≤ l) →
      List.Chain' (fun a b => b ≤ a + 1) (emitLevels last ls) := by
  intro ls
  induction ls with
  | nil => intro last _; simp [emitLevels_nil]
  | cons l ls ih =>
    intro last h
    rw [emitLevels_cons, List.chain'_cons']
    refine ⟨?_, ih _ (fun y hy => h y (List.mem_cons_of_mem l hy))⟩
    intro y hy
    have hpos : 1 ≤ clampLevel last l :=
      clampLevel_pos _ _ (h l (List.mem_cons_self l ls))
    cases ls with
    | nil => simp [emitLevels_nil] at hy
    | cons m ms =>
      rw [emitLevels_cons] at hy
      simp only [List.head?_cons, Option.mem_def, Option.some.injEq] at hy
      subst hy
      exact clampLevel_le_succ _ _ hpos

/-- C1: over any heading sequence converted by one converter instance
(state starting at `initConvState`), the emitted (clamped) levels never
increase by more than 1 between consecutive headings; the first
heading's level is emitted exactly as its nominal tag level; and
`last_heading_level` ends up equal to the last emitted level (it is
updated to the emitted level after every heading, clamped ones
included). -/
theorem c1_clamped_levels_invariant (xs : List (HeadingEl × String × Nat))
    (h : ∀ x ∈ xs, 1 ≤ x.2.2) :
    List.Chain' (fun a b => b ≤ a + 1)
        ((runHeadings initConvState xs).1.headings.map Prod.fst)
      ∧ ((runHeadings initConvState xs).1.headings.map Prod.fst).head?
          = (xs.map (fun x => x.2.2)).head?
      ∧ (runHeadings initConvState xs).1.last_heading_level
          = ((runHeadings initConvState xs).1.headings.map Prod.fst).getLastD 0 := by
  have hs := runHeadings_spec xs initConvState
  have hlvls : ∀ l ∈ xs.map (fun x => x.2.2), 1 ≤ l := by
    intro l hl
    rcases List.mem_map.mp hl with ⟨x, hx, rfl⟩
    exact h x hx
  have e1 : (runHeadings initConvState xs).1.headings.map Prod.fst
      = emitLevels 0 (xs.map (fun x => x.2.2)) := by
    have h1 := hs.1
    rwa [show initConvState.headings = [] from rfl,
      show initConvState.last_heading_level = 0 from rfl,
      List.map_nil, List.nil_append] at h1
  have e2 : (runHeadings initConvState xs).1.last_heading_level
      = (emitLevels 0 (xs.map (fun x => x.2.2))).getLastD 0 := by
    have h2 := hs.2
    rwa [show initConvState.last_heading_level = 0 from rfl] at h2
  refine ⟨?_, ?_, ?_⟩
  · rw [e1]
    exact emitLevels_chain' _ 0 hlvls
  · rw [e1]
    cases xs with
    | nil => rfl
    | cons x xs' =>
      rw [List.map_cons, emitLevels_cons, clampLevel_zero]
      rfl
  · rw [e2, e1]

/-- C1 witness: a concrete run (nominal levels 2 then 5; the second
heading is clamped to 3). -/
theorem c1_clamped_levels_invariant_witness :
    List.Chain' (fun a b => b ≤ a + 1)
        ((runHeadings initConvState
          [(⟨none, none⟩, "A", 2), (⟨none, none⟩, "B", 5)]).1.headings.map Prod.fst)
      ∧ ((runHeadings initConvState
          [(⟨none, none⟩, "A", 2), (⟨none, none⟩, "B", 5)]).1.headings.map Prod.fst).head?
          = ([(⟨none, none⟩, "A", 2), (⟨none, none⟩, "B", 5)].map
              (fun x : HeadingEl × String × Nat => x.2.2)).head?
      ∧ (runHeadings initConvState
          [(⟨none, none⟩, "A", 2), (⟨none, none⟩, "B", 5)]).1.last_heading_level
          = ((runHeadings initConvState
              [(⟨none, none⟩, "A", 2), (⟨none, none⟩, "B", 5)]).1.headings.map
                Prod.fst).getLastD 0 :=
  c1_clamped_levels_invariant
    [(⟨none, none⟩, "A", 2), (⟨none, none⟩, "B", 5)] (by decide)

/-- C10: the emitted (clamped) level of a heading never exceeds its
nominal tag level, and a heading whose nominal level is at most the
previous emitted level plus 1 is emitted at exactly its nominal
level. -/
theorem c10_clamp_never_raises (st : ConvState) (el : HeadingEl)
    (t : String) (lvl : Nat) :
    (((convertHeading st el t lvl).1.headings).getLastD (0, "", "")).1 ≤ lvl
      ∧ (lvl ≤ st.last_heading_level + 1 →
          (((convertHeading st el t lvl).1.headings).getLastD (0, "", "")).1 = lvl) := by
  have hl : ((convertHeading st el t lvl).1.headings).getLastD (0, "", "")
      = (clampLevel st.last_heading_level lvl,
         slugify (headingFinalText el t), headingFinalText el t) := by
    rw [convertHeading_headings, List.getLastD_eq_getLast?, List.getLast?_concat]
    rfl
  rw [hl]
  exact ⟨clampLevel_le _ _, fun hle => clampLevel_eq_of_le _ _ hle⟩

/-- C10 witness: a nominal level 2 heading after an emitted level 1
heading is emitted at exactly level 2 (and never above nominal). -/
theorem c10_clamp_never_raises_witness :
    (((convertHeading ⟨[], [], 1⟩ ⟨none, none⟩ "T" 2).1.headings).getLastD
        (0, "", "")).1 ≤ 2
      ∧ (((convertHeading ⟨[], [], 1⟩ ⟨none, none⟩ "T" 2).1.headings).getLastD
          (0, "", "")).1 = 2 :=
  ⟨(c10_clamp_never_raises ⟨[], [], 1⟩ ⟨none, none⟩ "T" 2).1,
   (c10_clamp_never_raises ⟨[], [], 1⟩ ⟨none, none⟩ "T" 2).2 (by decide)⟩

/-- C3: a heading whose whitespace-normalized text already starts with
the numeric pattern of line 175 is emitted without the gathered
numbering text; otherwise the numbering text is prepended (and the
result stripped); and the emitted Markdown uses exactly that final
text. -/
theorem c3_no_double_numbering (st : ConvState) (el : HeadingEl)
    (text : String) (lvl : Nat) :
    (startsWithNumbering (normalizeHeadingText text).data = true →
        headingFinalText el text = normalizeHeadingText text)
      ∧ (startsWithNumbering (normalizeHeadingText text).data = false →
        headingFinalText el text
          = ⟨stripChars (headingNumbering el ++ normalizeHeadingText text).data⟩)
      ∧ (convertHeading st el text lvl).2
        = "\n\n" ++ repeatStr "#" (clampLevel st.last_heading_level lvl)
            ++ " " ++ headingFinalText el text ++ "\n\n" := by
  refine ⟨?_, ?_, rfl⟩
  · intro h
    simp [headingFinalText, h]
  · intro h
    simp [headingFinalText, h]

/-- C3 witness: text `"1.2 Overview"` with numbering `"2. "` is not
double-prefixed. -/
theorem c3_no_double_numbering_witness :
    headingFinalText ⟨some "2. ", none⟩ "1.2 Overview"
      = normalizeHeadingText "1.2 Overview" :=
  (c3_no_double_numbering initConvState ⟨some "2. ", none⟩
    "1.2 Overview" 1).1 (by decide)

/-- C6: with zero emitted TOC placeholders, `finalize_toc` returns its
input text unchanged, whatever the headings and level state are. -/
theorem c6_finalize_toc_identity (headings : List (Nat × String × String))
    (last : Nat) (text : String) :
    finalize_toc ⟨headings, [], last⟩ text = text := by
  simp [finalize_toc]

/-- C7: with at least one emitted placeholder, `finalize_toc` replaces
every occurrence of each placeholder with one common string: the
literal "no headings" notice when zero headings were discovered, and
the single rendering of the full heading list otherwise. -/
theorem c7_toc_uniform_replacement (st : ConvState) (text : String)
    (hph : st.toc_placeholders ≠ []) :
    (st.headings = [] →
        finalize_toc st text
          = replaceEach text st.toc_placeholders
              "\n\n(No headings found for TOC)\n\n")
      ∧ (st.headings ≠ [] →
        finalize_toc st text
          = replaceEach text st.toc_placeholders (tocRender st.headings)) := by
  constructor
  · intro hh
    simp only [finalize_toc, if_neg hph, replaceEach, tocMarkdownOf, if_pos hh]
  · intro hh
    simp only [finalize_toc, if_neg hph, replaceEach, tocMarkdownOf, if_neg hh]

/-- C7 witness: two placeholders and zero headings; both placeholder
occurrences receive the same notice. -/
theorem c7_toc_uniform_replacement_witness :
    finalize_toc ⟨[], ["<<<TOC-0>>>", "<<<TOC-1>>>"], 0⟩
        "A<<<TOC-0>>>B<<<TOC-1>>>C"
      = replaceEach "A<<<TOC-0>>>B<<<TOC-1>>>C"
          ["<<<TOC-0>>>", "<<<TOC-1>>>"]
          "\n\n(No headings found for TOC)\n\n" :=
  (c7_toc_uniform_replacement ⟨[], ["<<<TOC-0>>>", "<<<TOC-1>>>"], 0⟩
    "A<<<TOC-0>>>B<<<TOC-1>>>C" (by decide)).1 rfl

lemma tocLine_eq_spec (h : Nat × String × String) :
    tocLine h = specTocLine h := by
  rcases h with ⟨l, a, t⟩
  have hind : (if l = 1 then "" else repeatStr "  " (l - 1))
      = (if l > 1 then repeatStr "  " (l - 1) else "") := by
    rcases l with _ | _ | n
    · decide
    · decide
    · have h1 : ¬(n + 2 = 1) := by omega
      have h2 : n + 2 > 1 := by omega
      rw [if_neg h1, if_pos h2]
  simp only [tocLine, specTocLine]
  rw [hind]

/-- C8: the TOC bullet list renders one bullet per recorded heading,
with the indentation the spec describes (2 spaces × (level − 1) for
levels above 1, none for level 1), linking the heading text to its
slug; and on `[(1,"intro","Intro"), (2,"sub-a","Sub A")]` it renders
exactly the claimed string. -/
theorem c8_toc_rendering :
    (∀ hs : List (Nat × String × String), tocRender hs = specTocRender hs)
      ∧ tocRender [(1, "intro", "Intro"), (2, "sub-a", "Sub A")]
          = "- [Intro](#intro)\n  - [Sub A](#sub-a)\n\n" := by
  constructor
  · intro hs
    unfold tocRender specTocRender
    rw [funext tocLine_eq_spec]
  · decide

/-- C2 counterexample: the URL `https://example.com/antidisplay/a/b`
has none of the three claimed path shapes, yet `extract_page_info`
does not raise: the `display` branch is selected by substring
containment and returns `("a", "b", None)`. -/
theorem c2_url_extraction_counterexample :
    extract_page_info "https://example.com/antidisplay/a/b"
        = Except.ok (some "a", some "b", none)
      ∧ ∀ e, extract_page_info "https://example.com/antidisplay/a/b"
          ≠ Except.error e := by
  refine ⟨rfl, ?_⟩
  intro e he
  rw [show extract_page_info "https://example.com/antidisplay/a/b"
      = Except.ok (some "a", some "b", none) from rfl] at he
  exact Except.noConfusion he

/-- C2 (amended): the three positive URL shapes extract as claimed, and
a URL whose path contains none of the markers `viewpage.action`,
`display`, or both `wiki` and `spaces` (substring containment, as the
source tests) raises an error. -/
theorem c2_url_extraction_amended :
    extract_page_info
        "https://confluence.example.com/pages/viewpage.action?pageId=123"
        = Except.ok (none, none, some "123")
      ∧ extract_page_info "https://confluence.example.com/display/SPACE/My+Page"
        = Except.ok (some "SPACE", some "My Page", none)
      ∧ extract_page_info
          "https://confluence.example.com/wiki/spaces/SPACE/pages/000/My+Page"
        = Except.ok (some "SPACE", some "My Page", none)
      ∧ ∀ url : String,
          strContains (urlparse url).path "viewpage.action" = false →
          strContains (urlparse url).path "display" = false →
          (strContains (urlparse url).path "wiki"
            && strContains (urlparse url).path "spaces") = false →
          ∃ e, extract_page_info url = Except.error e := by
  refine ⟨rfl, rfl, rfl, ?_⟩
  intro url h1 h2 h3
  refine ⟨"PAGE_URL does not follow a recognized Confluence URL format.", ?_⟩
  simp only [extract_page_info, h1, h2, h3]
  simp

/-- C2 witness: a plain path with none of the markers raises. -/
theorem c2_url_extraction_witness :
    ∃ e, extract_page_info "https://example.com/foo/bar" = Except.error e :=
  c2_url_extraction_amended.2.2.2 "https://example.com/foo/bar"
    (by decide) (by decide) (by decide)

/-- C5: when downloading the resolved image source fails, `convert_img`
logs the error, points the element's `src` at the resolved absolute URL
(not a local path), and still returns image Markdown — the failure is
confined to this image. -/
theorem c5_img_download_failure_nonfatal (BASE : String)
    (dl : String → Except String Unit) (el : ImgEl) (s msg : String)
    (hs : resolveImgSrc BASE el = some s)
    (hp : strContains s "status-macro/placeholder" = false)
    (hd : dl s = .error msg) :
    convert_img BASE dl el
      = .ok ({ el with src := some s },
          superConvertImg { el with src := some s } ++ "\n\n",
          ["Detected normal image: " ++ s,
           "Error downloading image " ++ s ++ ": " ++ msg]) := by
  simp [convert_img, hs, hp, hd]

/-- C5 witness: a concrete image whose download fails. -/
theorem c5_img_download_failure_nonfatal_witness :
    convert_img "https://base" (fun _ => Except.error "boom")
        ⟨none, some "https://h/img.png", "alt", none⟩
      = Except.ok (⟨none, some "https://h/img.png", "alt", none⟩,
          "![alt](https://h/img.png)\n\n",
          ["Detected normal image: https://h/img.png",
           "Error downloading image https://h/img.png: boom"]) := by
  have h := c5_img_download_failure_nonfatal "https://base"
    (fun _ => Except.error "boom")
    ⟨none, some "https://h/img.png", "alt", none⟩
    "https://h/img.png" "boom" (by decide) (by decide) rfl
  exact h.trans rfl

lemma rstripSlash_eq_self (s : String) (h : s.data.getLast? ≠ some '/') :
    rstripSlash s = s := by
  have key : (s.data.reverse.dropWhile (fun c => c == '/')).reverse = s.data := by
    cases hr : s.data.reverse with
    | nil =>
      have hd : s.data = [] := by
        simpa using congrArg List.reverse hr
      rw [hd]
      rfl
    | cons c rest =>
      have hc : c ≠ '/' := by
        have hl : s.data.getLast? = some c := by
          rw [← List.head?_reverse, hr]
          rfl
        intro hcc
        rw [hcc] at hl
        exact h hl
      rw [List.dropWhile_cons, if_neg (by simp [hc]), ← hr,
        List.reverse_reverse]
  exact congrArg String.mk key

/-- C9: `convert_a` leaves an href starting `http://`, `https://` or
`mailto:` byte-for-byte unchanged, rewrites every other non-empty href
to `BASE_URL.rstrip("/") + href`, and rstrip is the identity when the
detected base origin has no trailing slash. -/
theorem c9_link_resolution (BASE : String) (el : AEl) (h0 : String)
    (he : el.href = some h0) :
    (startsHttpMailto h0 = true → (convert_a BASE el).1 = el)
      ∧ (h0 ≠ "" → startsHttpMailto h0 = false →
          (convert_a BASE el).1.href = some (rstripSlash BASE ++ h0))
      ∧ (BASE.data.getLast? ≠ some '/' → rstripSlash BASE = BASE) := by
  refine ⟨?_, ?_, rstripSlash_eq_self BASE⟩
  · intro hsm
    have hne : h0 ≠ "" := by
      intro hh
      rw [hh] at hsm
      exact absurd hsm (by decide)
    simp [convert_a, he, hne, hsm]
  · intro hne hsm
    simp [convert_a, he, hne, hsm]

/-- C9 witness: the relative href `/x/y` is absolutized against the
base origin. -/
theorem c9_link_resolution_witness :
    (convert_a "https://example.com" ⟨some "/x/y", "t"⟩).1.href
      = some "https://example.com/x/y" := by
  have h := c9_link_resolution "https://example.com" ⟨some "/x/y", "t"⟩
    "/x/y" rfl
  rw [h.2.1 (by decide) (by decide)]
  rfl

end C2M
